import Mathlib

/-!
Verification of the multitaper point-process spectral estimation core of
`dlab` (`dlab/pointproc.py`): the point-process Fourier transformer
`_mtfftpt` (here `mtfftptCore`, since a Lean name cannot start with an
underscore), the estimators `mtfftpt`, `mtspectrumpt` and `coherencycpt`.

Modelling conventions:
  * Real scalars are `ℚ` (exact arithmetic stands in for float arithmetic).
  * Complex numbers are pairs `CQ` of rationals.
  * The numerical-library primitives that are external to the repository
    (complex exponential, complex square root, absolute value, angle, the
    dpss taper computation, and the continuous-signal multitaper transform
    `signalproc.mtfft`) are abstracted as fields of an `NumExt` bundle; the
    irrational constant π is likewise a field `NumExt.pi`.
  * numpy arrays of shape (freq, taper, trial) are represented trial-major:
    `J[c][fi][k]` is the numpy `J[fi, k, c]`.  2-D (sample × channel) arrays
    are row-major lists of rows.
-/

/-- A complex number with rational real and imaginary parts. -/
structure CQ where
  re : ℚ
  im : ℚ
deriving DecidableEq

def CQ.zero : CQ := ⟨0, 0⟩

def CQ.add (a b : CQ) : CQ := ⟨a.re + b.re, a.im + b.im⟩

def CQ.sub (a b : CQ) : CQ := ⟨a.re - b.re, a.im - b.im⟩

def CQ.mul (a b : CQ) : CQ := ⟨a.re * b.re - a.im * b.im, a.re * b.im + a.im * b.re⟩

/-- Complex conjugate. -/
def CQ.conj (a : CQ) : CQ := ⟨a.re, -a.im⟩

/-- Complex division (numpy semantics away from zero; division by zero yields
zero under the `ℚ` convention `x / 0 = 0`). -/
def CQ.div (a b : CQ) : CQ :=
  let d := b.re * b.re + b.im * b.im
  ⟨(a.re * b.re + a.im * b.im) / d, (a.im * b.re - a.re * b.im) / d⟩

/-- Sum of a list of complex numbers. -/
def csum (l : List CQ) : CQ := l.foldr CQ.add CQ.zero

/-- Arithmetic mean of a list of rationals (`numpy.mean`). -/
def meanQ (l : List ℚ) : ℚ := l.sum / (l.length : ℚ)

/-- Arithmetic mean of a list of complex numbers (`numpy.mean`). -/
def meanC (l : List CQ) : CQ :=
  let s := csum l
  ⟨s.re / (l.length : ℚ), s.im / (l.length : ℚ)⟩

/-- `numpy.ndarray.min` of a vector (0 on the empty list, where numpy errors). -/
def listMin : List ℚ → ℚ
  | [] => 0
  | x :: xs => xs.foldl min x

/-- `numpy.ndarray.max` of a vector (0 on the empty list, where numpy errors). -/
def listMax : List ℚ → ℚ
  | [] => 0
  | x :: xs => xs.foldl max x

/-- Piecewise-linear interpolation of the points `(ts, ys)` at `x`
(`scipy.interpolate.interp1d` with the default linear kind, on an ascending
grid; out-of-range queries extrapolate along the end segments, but the caller
only ever queries within `[min ts, max ts]`).  This total function models
only the evaluations of a successfully constructed interpolator: scipy's
construction-time ValueError — raised when the data length does not match
the grid length, or the grid has fewer than two points — is captured by the
separate failure predicate `mtfftptRaises`. -/
def interpLin : List ℚ → List ℚ → ℚ → ℚ
  | t0 :: t1 :: ts, y0 :: y1 :: ys, x =>
    if x ≤ t1 ∨ ts = [] then y0 + (y1 - y0) * (x - t0) / (t1 - t0)
    else interpLin (t1 :: ts) (y1 :: ys) x
  | _, _, _ => 0

/-- Modelled from the spec: `linalg.outer` (module `linalg`, not under `src/`):
the dense outer product, `(outer a b)[i][j] = a[i] * b[j]`. -/
def outerC (a b : List CQ) : List (List CQ) :=
  a.map (fun x => b.map (fun y => CQ.mul x y))

/-- Modelled from the spec: `linalg.gemm` with `trans_b=1` (module `linalg`,
not under `src/`): dense complex matrix multiply with the second factor
transposed, `(gemm A B)[i][l] = Σ_j A[i][j] * B[l][j]`. -/
def gemmTB (A B : List (List CQ)) : List (List CQ) :=
  A.map (fun row => B.map (fun brow => csum (List.zipWith CQ.mul row brow)))

/-- Elementwise matrix subtraction. -/
def matSub (A B : List (List CQ)) : List (List CQ) :=
  List.zipWith (fun ra rb => List.zipWith CQ.sub ra rb) A B

/-- Multiplication of a complex matrix by a real scalar on the right
(`H * Msp[chan]` in the source). -/
def smulMat (M : List (List CQ)) (q : ℚ) : List (List CQ) :=
  M.map (fun row => row.map (fun z => CQ.mul z ⟨q, 0⟩))

/-- Number of columns of a row-major rational matrix
(`shape[1]` of a rectangular numpy array). -/
def numColsQ (M : List (List ℚ)) : ℕ := (M.headD []).length

/-- Column `k` of a row-major rational matrix (a row of `tapers.T`). -/
def colOf (M : List (List ℚ)) (k : ℕ) : List ℚ := M.map (fun row => row.getD k 0)

/-- The external numerical primitives used by `pointproc.py` but defined
outside the repository (numpy/scipy and the `signalproc` module): the complex
exponential, the constant π, complex square root, absolute value and angle,
the dpss taper computation backing `dpsschk`, and the continuous-signal
multitaper transform `signalproc.mtfft` (arguments: data, tapers, pad, Fs,
fpass; value: the trial-major `J1` array). -/
structure NumExt where
  cexp : CQ → CQ
  pi : ℚ
  csqrt : CQ → CQ
  cabs : CQ → ℚ
  cangle : CQ → ℚ
  dpss : ℕ → ℚ → ℕ → List (List ℚ)
  mtfft : List (List ℚ) → List (List ℚ) → ℤ → ℚ → ℚ × ℚ → List (List (List CQ))

/-- The keyword-argument record of the estimators (§6 of the spec): `tapers`
is either a precomputed taper matrix or a taper count, `fpass` is `none` when
the caller leaves the default `(0, Fs/2)`. -/
structure Opts where
  tapers : Sum (List (List ℚ)) ℕ
  mtm_p : ℚ
  pad : ℤ
  Fs : ℚ
  fpass : Option (ℚ × ℚ)
  trialave : Bool
  tgrid : Option (List ℚ)

/-- The effective pass-band: `kwargs.get('fpass', (0, Fs/2.))`. -/
def fpassOf (opts : Opts) : ℚ × ℚ := opts.fpass.getD (0, opts.Fs / 2)

/-- Modelled from the spec: `datautils.nextpow2` (module not under `src/`),
the exponent `ceil(log2 N)` of the next power of two. -/
def nextpow2 (N : ℕ) : ℕ := Nat.clog 2 N

/-- The padded transform length `max(2**(nextpow2(N)+pad), N)`.  For a
negative exponent the source's fractional power is below `N`, so taking the
max with `N` gives the same value as the clamped natural exponent used here. -/
def nfftOf (N : ℕ) (pad : ℤ) : ℕ := max (2 ^ ((nextpow2 N : ℤ) + pad).toNat) N

/-- Modelled from the spec: `signalproc.getfgrid` (Frequency Grid Builder,
module not under `src/`): the `nfft/2 + 1` non-negative frequency bins at
spacing `Fs/nfft`, restricted to the inclusive pass-band `fpass`, returned
together with the surviving indices into the full bin array. -/
def getfgrid (Fs : ℚ) (nfft : ℕ) (fpass : ℚ × ℚ) : List ℚ × List ℕ :=
  let df := Fs / (nfft : ℚ)
  let kept := (List.range (nfft / 2 + 1)).filter
    (fun (j : ℕ) => decide (fpass.1 ≤ (j : ℚ) * df ∧ (j : ℚ) * df ≤ fpass.2))
  (kept.map (fun (j : ℕ) => (j : ℚ) * df), kept)

/-- `numpy.arange(a, b, dt)`: the points `a + k*dt` for `0 ≤ k < ⌈(b-a)/dt⌉`. -/
def arangeQ (a b dt : ℚ) : List ℚ :=
  (List.range (⌈(b - a) / dt⌉).toNat).map (fun (k : ℕ) => a + (k : ℚ) * dt)

/-- Modelled from the spec: the `range` attribute of an EventTimeCollection
(`toelis`, not under `src/`): the pair (min over all sequences, max over all
sequences) of event times, as a two-element bounds list. -/
def tlRange (tl : List (List ℚ)) : List ℚ :=
  [listMin tl.flatten, listMax tl.flatten]

/-- Modelled from the spec: `signalproc.dpsschk` (Taper Bank, module not
under `src/`): a precomputed taper matrix supplied by the caller is passed
through unchanged; otherwise the K dpss tapers of length N with
time-bandwidth product `mtm_p` are computed (via the abstract `NumExt.dpss`). -/
def dpsschk (E : NumExt) (N : ℕ) (opts : Opts) : List (List ℚ) :=
  match opts.tapers with
  | .inl M => M
  | .inr K => E.dpss N opts.mtm_p K

/-- One entry of the zero-padded taper FFT `scipy.fftpack.fft(tapers, nfft,
axis=0)`: the DFT of column `col` (zero-padded or truncated to `nfft`) at
frequency row `j`. -/
def dftEntry (E : NumExt) (nfft : ℕ) (col : List ℚ) (j : ℕ) : CQ :=
  csum ((List.range nfft).map (fun n =>
    CQ.mul ⟨col.getD n 0, 0⟩
      (E.cexp ⟨0, -(2 * E.pi * (j : ℚ) * (n : ℚ) / (nfft : ℚ))⟩)))

/-- The taper spectrum `H = fft(tapers, nfft, axis=0)[findx, :]`, computed
once per call, outside the per-trial loop. -/
def Hof (E : NumExt) (tapers : List (List ℚ)) (nfft : ℕ) (findx : List ℕ) :
    List (List CQ) :=
  findx.map (fun j =>
    (List.range (numColsQ tapers)).map (fun k => dftEntry E nfft (colOf tapers k) j))

/-- The angular frequencies `w = 2 * f * pi`, computed once per call. -/
def wOf (E : NumExt) (f : List ℚ) : List ℚ := f.map (fun x => 2 * x * E.pi)

/-- The in-range filter of one trial's event times:
`events[(events >= t.min()) & (events <= t.max())]`. -/
def evFilter (t events : List ℚ) : List ℚ :=
  events.filter (fun x => decide (listMin t ≤ x ∧ x ≤ listMax t))

/-- One trial's mean spikes per sample, `Msp[chan] = 1. * ev.size / t.size`. -/
def mspOf (t events : List ℚ) : ℚ :=
  ((evFilter t events).length : ℚ) / (t.length : ℚ)

/-- The body of the per-trial loop of `_mtfftpt` (`pointproc.py` lines
236-246): filter the events to the grid's range; if any remain, interpolate
the tapers at the event times, form the phase matrix
`Y = exp(outer(-1j*w, ev - t[0]))` and take
`gemm(Y, data_proj, trans_b=1) - H * Msp[chan]`; otherwise the trial's
column is all zeros. -/
def mtJcol (E : NumExt) (tapers : List (List ℚ)) (t w : List ℚ)
    (H : List (List CQ)) (events : List ℚ) : List (List CQ) :=
  let ev := evFilter t events
  let Msp : ℚ := ((ev.length : ℚ) / (t.length : ℚ))
  if 0 < ev.length then
    let data_proj : List (List CQ) :=
      (List.range (numColsQ tapers)).map (fun k =>
        ev.map (fun e => CQ.mk (interpLin t (colOf tapers k) e) 0))
    let Y : List (List CQ) :=
      (outerC (w.map (fun x => CQ.mk 0 (-x)))
        (ev.map (fun e => CQ.mk (e - t.headD 0) 0))).map
        (fun row => row.map E.cexp)
    matSub (gemmTB Y data_proj) (smulMat H Msp)
  else
    w.map (fun _ => (List.range (numColsQ tapers)).map (fun _ => CQ.zero))

/-- The helper `_mtfftpt` (`pointproc.py` lines 201-249; a Lean name cannot
start with an underscore).  `none` models the `assert` on line 225, which
fires exactly when the frequency grid and the index set have different
sizes; otherwise this returns the trial-major `(J, Msp, Nsp)`, with `H` and
`w` computed once outside the per-trial loop.  This is the value model of
the non-failing runs: the `interp1d(t, tapers.T)` construction on line 235
can raise even when the frequency sizes match (taper length different from
the grid length, or a grid shorter than two points); that error path is
modelled by the failure predicate `mtfftptRaises`, and `some` values are
faithful exactly on runs where `mtfftptRaises` does not hold. -/
def mtfftptCore (E : NumExt) (tl : List (List ℚ)) (tapers : List (List ℚ))
    (nfft : ℕ) (t f : List ℚ) (findx : List ℕ) :
    Option (List (List (List CQ)) × List ℚ × List ℕ) :=
  if f.length = findx.length then
    some (tl.map (fun events =>
            mtJcol E tapers t (wOf E f) (Hof E tapers nfft findx) events),
          tl.map (fun events => mspOf t events),
          tl.map (fun events => (evFilter t events).length))
  else
    none

/-- The failure condition of `_mtfftpt` (`pointproc.py`): the `assert` on
line 225 fires when the frequency grid and the index set have different
sizes, and the `interp1d(t, tapers.T)` construction on line 235 raises a
ValueError when the tapers' length does not match the grid length or the
grid has fewer than two points.  Both checks run before the per-trial loop,
so the condition never depends on the trials' event data. -/
def mtfftptRaises (tapers : List (List ℚ)) (t f : List ℚ)
    (findx : List ℕ) : Prop :=
  f.length ≠ findx.length ∨ tapers.length ≠ t.length ∨ t.length < 2

instance (tapers : List (List ℚ)) (t f : List ℚ) (findx : List ℕ) :
    Decidable (mtfftptRaises tapers t f findx) := by
  unfold mtfftptRaises
  infer_instance

/-- The time grid used by `mtfftpt` (`pointproc.py` lines 186-190): the
explicit `tgrid` if supplied, else the collection's `range`; a two-element
bounds pair `(mintime, maxtime)` is expanded to
`arange(mintime - dt, maxtime + 2*dt, dt)` with `dt = 1/Fs`. -/
def gridOf (tl : List (List ℚ)) (opts : Opts) : List ℚ :=
  let t := opts.tgrid.getD (tlRange tl)
  if t.length = 2 then
    let dt := 1 / opts.Fs
    arangeQ (t.headD 0 - dt) (t.getD 1 0 + 2 * dt) dt
  else t

/-- `mtfftpt` (`pointproc.py` lines 151-199): build the time grid, padded
length, frequency grid and tapers, then run the transformer.  Returns
`(J, Msp, Nsp, f)`. -/
def mtfftpt (E : NumExt) (tl : List (List ℚ)) (opts : Opts) :
    Option (List (List (List CQ)) × List ℚ × List ℕ × List ℚ) :=
  let t := gridOf tl opts
  let nfft := nfftOf t.length opts.pad
  let fg := getfgrid opts.Fs nfft (fpassOf opts)
  let tapers := dpsschk E t.length opts
  (mtfftptCore E tl tapers nfft t fg.1 fg.2).map
    (fun r => (r.1, r.2.1, r.2.2, fg.1))

/-- The mean over trials of a trial-major (trial × freq) real array
(`S.mean(1)` on the numpy (freq, trial) layout). -/
def trialMeanQ (S : List (List ℚ)) : List ℚ :=
  (List.range (S.headD []).length).map (fun i => meanQ (S.map (fun c => c.getD i 0)))

/-- The mean over trials of a trial-major (trial × freq) complex array. -/
def trialMeanC (S : List (List CQ)) : List CQ :=
  (List.range (S.headD []).length).map
    (fun i => meanC (S.map (fun c => c.getD i CQ.zero)))

/-- `mtspectrumpt` (`pointproc.py` lines 100-148): run `mtfftpt`, take
`S = mean(real(J.conj() * J), 1)` (mean over tapers), average `S` and `Msp`
over trials when `trialave` is set (the averaged results are singleton
lists), and return `(S, f, R)` with `R = Msp * Fs`. -/
def mtspectrumpt (E : NumExt) (tl : List (List ℚ)) (opts : Opts) :
    Option (List (List ℚ) × List ℚ × List ℚ) :=
  (mtfftpt E tl opts).map (fun r =>
    let S := r.1.map (fun Jc =>
      Jc.map (fun row => meanQ (row.map (fun z => (CQ.mul z.conj z).re))))
    let Msp := r.2.1
    if opts.trialave then
      ([trialMeanQ S], r.2.2.2, [meanQ Msp * opts.Fs])
    else
      (S, r.2.2.2, Msp.map (fun m => m * opts.Fs)))

/-- `numpy.tile(S, (1, n))`: every row is concatenated `n` times, repeating
the columns to match the trial count. -/
def tileCols (S : List (List ℚ)) (n : ℕ) : List (List ℚ) :=
  S.map (fun row => (List.replicate n row).flatten)

/-- The taper-mean cross spectrum `squeeze(mean(A.conj() * B, 1))` of two
trial-major (trial × freq × taper) arrays. -/
def crossSpec (A B : List (List (List CQ))) : List (List CQ) :=
  List.zipWith (fun Ac Bc =>
    List.zipWith (fun ar br =>
      meanC (List.zipWith (fun x y => CQ.mul x.conj y) ar br)) Ac Bc) A B

/-- The errors `coherencycpt` can raise: the trial-dimension `ValueError`
(line 68) and the frequency-size `assert` inside `_mtfftpt` (line 225). -/
inductive CohErr where
  | dimMismatch
  | freqMismatch
deriving DecidableEq

/-- The value returned by `coherencycpt`: `(C, phi, S12, S1, S2, f)`, the
spectra trial-major (singleton outer lists when `trialave` is set). -/
structure CohOut where
  Cmag : List (List ℚ)
  phi : List (List ℚ)
  S12 : List (List CQ)
  S1 : List (List CQ)
  S2 : List (List CQ)
  f : List ℚ
deriving DecidableEq

/-- The time grid used by `coherencycpt` (`pointproc.py` lines 71-75): the
explicit `tgrid` if supplied (used as-is, with no bounds-pair expansion),
else `arange(0, N*dt, dt)` over the support of the continuous data. -/
def cohGrid (S : List (List ℚ)) (opts : Opts) : List ℚ :=
  match opts.tgrid with
  | some g => g
  | none => arangeQ 0 ((S.length : ℚ) * (1 / opts.Fs)) (1 / opts.Fs)

/-- The transform stage of `coherencycpt` (`pointproc.py` lines 78-84): the
padded length, frequency grid and tapers, the continuous transform `J1` (the
external `signalproc.mtfft`) and the point-process transform `J2`. -/
def cohPre (E : NumExt) (S tl : List (List ℚ)) (opts : Opts) :
    Option (List (List (List CQ)) × List (List (List CQ)) × List ℚ) :=
  let t := cohGrid S opts
  let nfft := nfftOf S.length opts.pad
  let fg := getfgrid opts.Fs nfft (fpassOf opts)
  let tapers := dpsschk E S.length opts
  let J1 := E.mtfft S tapers opts.pad opts.Fs (fpassOf opts)
  (mtfftptCore E tl tapers nfft t fg.1 fg.2).map (fun r => (J1, r.1, fg.1))

/-- The estimation stage of `coherencycpt` (`pointproc.py` lines 86-98):
taper-mean spectra `S12, S1, S2`, trial averaging (before division) when
`trialave` is set, then `C12 = S12 / sqrt(S1 * S2)`, `C = |C12|`,
`phi = angle(C12)`. -/
def cohBody (E : NumExt) (S tl : List (List ℚ)) (opts : Opts) :
    Except CohErr CohOut :=
  match cohPre E S tl opts with
  | none => .error .freqMismatch
  | some (J1, J2, f) =>
    let S12 := crossSpec J1 J2
    let S1x := crossSpec J1 J1
    let S2x := crossSpec J2 J2
    let S12a := if opts.trialave then [trialMeanC S12] else S12
    let S1a := if opts.trialave then [trialMeanC S1x] else S1x
    let S2a := if opts.trialave then [trialMeanC S2x] else S2x
    let C12 := List.zipWith (fun r12 rd => List.zipWith CQ.div r12 rd) S12a
      (List.zipWith (fun r1 r2 =>
        List.zipWith (fun a b => E.csqrt (CQ.mul a b)) r1 r2) S1a S2a)
    .ok ⟨C12.map (fun r => r.map E.cabs), C12.map (fun r => r.map E.cangle),
         S12a, S1a, S2a, f⟩

/-- `coherencycpt` (`pointproc.py` lines 20-98): the continuous data must
have as many channels as the collection has trials, a single channel being
tiled to match; otherwise the dimension `ValueError` of line 68 is raised. -/
def coherencycpt (E : NumExt) (S tl : List (List ℚ)) (opts : Opts) :
    Except CohErr CohOut :=
  if numColsQ S = tl.length then cohBody E S tl opts
  else if numColsQ S = 1 then cohBody E (tileCols S tl.length) tl opts
  else .error .dimMismatch

/-- The coherency `C12 = S12 / sqrt(S1 * S2)` reconstructed from a
`coherencycpt` result (the intermediate value of line 94, which the source
returns only through `C = |C12|` and `phi = angle(C12)`). -/
def C12of (E : NumExt) (o : CohOut) : List (List CQ) :=
  List.zipWith (fun r12 rd => List.zipWith CQ.div r12 rd) o.S12
    (List.zipWith (fun r1 r2 =>
      List.zipWith (fun a b => E.csqrt (CQ.mul a b)) r1 r2) o.S1 o.S2)

/-! Concrete instances used by witnesses and counterexamples. -/

/-- A concrete instantiation of the external numerical primitives (any
instantiation exhibits the program structure under scrutiny; the claims
quantify over the primitives). -/
def EconA : NumExt :=
  ⟨fun _ => ⟨1, 0⟩, 0, fun c => c, fun z => z.re, fun z => z.im,
   fun _ _ _ => [], fun _ _ _ _ _ => []⟩

/-- A concrete 4 × 1 precomputed taper matrix. -/
def T4 : List (List ℚ) := [[1], [2], [3], [4]]

/-- A concrete 2 × 1 precomputed taper matrix (matches a two-point grid, so
the `interp1d` construction of line 235 would succeed). -/
def T2 : List (List ℚ) := [[1], [2]]

/-- A concrete 3 × 1 precomputed taper matrix (matches a three-point grid). -/
def T3 : List (List ℚ) := [[1], [2], [3]]

/-- A two-trial collection with 1 and 3 events. -/
def tlC4 : List (List ℚ) := [[0], [0, 1/2, 1]]

/-- Options with an explicit four-point time grid, `trialave` unset. -/
def optsC4 : Opts := ⟨.inl T4, 3, 0, 1, some (0, 1/2), false, some [0, 1/2, 1, 3/2]⟩

/-- A concrete trial-major continuous-signal transform value for the abstract
`signalproc.mtfft` (2 trials × 3 frequencies × 1 taper). -/
def J1con : List (List (List CQ)) :=
  [[[⟨1, 0⟩], [⟨1, 0⟩], [⟨1, 0⟩]], [[⟨2, 0⟩], [⟨2, 0⟩], [⟨2, 0⟩]]]

/-- Like `EconA` but with `mtfft` returning `J1con`. -/
def EconB : NumExt :=
  ⟨fun _ => ⟨1, 0⟩, 0, fun c => c, fun z => z.re, fun z => z.im,
   fun _ _ _ => [], fun _ _ _ _ _ => J1con⟩

/-- A 4-sample, 2-channel continuous signal. -/
def Scon5 : List (List ℚ) := [[1, 1], [1, 1], [1, 1], [1, 1]]

/-- A two-trial collection for the coherency instance. -/
def tlcon5 : List (List ℚ) := [[0], [1, 2]]

/-- Coherency options with `trialave` set. -/
def optsT5 : Opts := ⟨.inl T4, 3, 0, 1, some (0, 1/2), true, some [0, 1, 2, 3]⟩

/-- Coherency options with `trialave` unset. -/
def optsF5 : Opts := ⟨.inl T4, 3, 0, 1, some (0, 1/2), false, some [0, 1, 2, 3]⟩

/-- Options with a two-element bounds pair as the time grid. -/
def optsW10 : Opts := ⟨.inl T4, 3, 0, 1, some (0, 1/2), false, some [0, 1]⟩

/-- Options with a three-point grid `[0, 1, 2]` (no bounds-pair expansion)
and matching three-point tapers. -/
def optsC3 : Opts := ⟨.inl T3, 3, 0, 1, some (0, 1/2), false, some [0, 1, 2]⟩

/-- The transformer output on `[[0, 5, 1/2]]` over the grid `[0, 1]` with
tapers `T2` (events 0 and 1/2 retained, 5 dropped). -/
def rWc2 : List (List (List CQ)) × List ℚ × List ℕ :=
  ([[[⟨-1/2, 0⟩]]], [1], [2])

/-- The transformer output on `[[0], [7]]` over the grid `[0, 1]` with
tapers `T2`. -/
def rWc9a : List (List (List CQ)) × List ℚ × List ℕ :=
  ([[[⟨-1/2, 0⟩]], [[CQ.zero]]], [1/2, 0], [1, 0])

/-- The transformer output on `[[0], [9]]` over the grid `[0, 1]` with
tapers `T2` (trial 0 agrees with `rWc9a`). -/
def rWc9b : List (List (List CQ)) × List ℚ × List ℕ :=
  ([[[⟨-1/2, 0⟩]], [[CQ.zero]]], [1/2, 0], [1, 0])

/-- `mtspectrumpt` output on the single-trial collection `[[5]]` with options
`optsC3` (the event is out of range, so `S` and `R` are zero). -/
def rWc3 : List (List ℚ) × List ℚ × List ℚ := ([[0, 0, 0]], [0, 1/4, 1/2], [0])

/-- `mtfftpt` output on `tlC4` with options `optsC4`. -/
def rWc4 : List (List (List CQ)) × List ℚ × List ℕ × List ℚ :=
  ([[[⟨-3/2, 0⟩], [⟨-3/2, 0⟩], [⟨-3/2, 0⟩]],
    [[⟨-3/2, 0⟩], [⟨-3/2, 0⟩], [⟨-3/2, 0⟩]]],
   [1/4, 3/4], [1, 3], [0, 1/4, 1/2])

/-- `mtspectrumpt` output on `tlC4` with options `optsC4`. -/
def sWc4 : List (List ℚ) × List ℚ × List ℚ :=
  ([[9/4, 9/4, 9/4], [9/4, 9/4, 9/4]], [0, 1/4, 1/2], [1/4, 3/4])

/-- The point-process transform `J2` on `tlcon5` over the grid `[0, 1, 2, 3]`
with tapers `T4`. -/
def J2w5 : List (List (List CQ)) :=
  [[[⟨-3/2, 0⟩], [⟨-3/2, 0⟩], [⟨-3/2, 0⟩]],
   [[⟨0, 0⟩], [⟨0, 0⟩], [⟨0, 0⟩]]]

/-- The `coherencycpt` output on `(Scon5, tlcon5)` with `trialave` set. -/
def outT5 : CohOut :=
  ⟨[[-4/15, -4/15, -4/15]], [[0, 0, 0]],
   [[⟨-3/4, 0⟩, ⟨-3/4, 0⟩, ⟨-3/4, 0⟩]],
   [[⟨5/2, 0⟩, ⟨5/2, 0⟩, ⟨5/2, 0⟩]],
   [[⟨9/8, 0⟩, ⟨9/8, 0⟩, ⟨9/8, 0⟩]],
   [0, 1/4, 1/2]⟩

/-! Helper lemmas. -/

lemma getDMapLt {α β : Type} (l : List α) (g : α → β) (c : ℕ) (d : α) (e : β)
    (hc : c < l.length) : (l.map g).getD c e = g (l.getD c d) := by
  rw [List.getD_eq_getElem?_getD, List.getD_eq_getElem?_getD,
    List.getElem?_eq_getElem (l := l.map g) (by simpa using hc),
    List.getElem?_eq_getElem hc]
  simp

lemma getDZipLt {α β γ : Type} (g : α → β → γ) (A : List α) (B : List β) (i : ℕ)
    (hA : i < A.length) (hB : i < B.length) (d : γ) (da : α) (db : β) :
    (List.zipWith g A B).getD i d = g (A.getD i da) (B.getD i db) := by
  have hl : i < (List.zipWith g A B).length := by
    rw [List.length_zipWith]
    exact lt_min hA hB
  rw [List.getD_eq_getElem?_getD, List.getElem?_eq_getElem hl,
    List.getD_eq_getElem?_getD, List.getD_eq_getElem?_getD,
    List.getElem?_eq_getElem hA, List.getElem?_eq_getElem hB]
  simp [List.getElem_zipWith]

lemma getDRangeLt (n k : ℕ) (hk : k < n) (d : ℕ) : (List.range n).getD k d = k := by
  rw [List.getD_eq_getElem?_getD,
    List.getElem?_eq_getElem (l := List.range n) (by simpa using hk)]
  simp

lemma foldlMinLe (xs : List ℚ) : ∀ a x, x ∈ a :: xs → xs.foldl min a ≤ x := by
  induction xs with
  | nil =>
    intro a x hx
    simp only [List.mem_singleton] at hx
    simp [hx]
  | cons y ys ih =>
    intro a x hx
    simp only [List.foldl_cons]
    rcases List.mem_cons.mp hx with h | h
    · exact le_trans (ih (min a y) (min a y) (by simp)) (by rw [h]; exact min_le_left a y)
    · rcases List.mem_cons.mp h with h2 | h2
      · exact le_trans (ih (min a y) (min a y) (by simp)) (by rw [h2]; exact min_le_right a y)
      · exact ih (min a y) x (List.mem_cons_of_mem _ h2)

lemma foldlMaxGe (xs : List ℚ) : ∀ a x, x ∈ a :: xs → x ≤ xs.foldl max a := by
  induction xs with
  | nil =>
    intro a x hx
    simp only [List.mem_singleton] at hx
    simp [hx]
  | cons y ys ih =>
    intro a x hx
    simp only [List.foldl_cons]
    rcases List.mem_cons.mp hx with h | h
    · exact le_trans (by rw [h]; exact le_max_left a y) (ih (max a y) (max a y) (by simp))
    · rcases List.mem_cons.mp h with h2 | h2
      · exact le_trans (by rw [h2]; exact le_max_right a y) (ih (max a y) (max a y) (by simp))
      · exact ih (max a y) x (List.mem_cons_of_mem _ h2)

lemma listMin_le (l : List ℚ) (x : ℚ) (hx : x ∈ l) : listMin l ≤ x := by
  cases l with
  | nil => simp at hx
  | cons a xs => exact foldlMinLe xs a x hx

lemma le_listMax (l : List ℚ) (x : ℚ) (hx : x ∈ l) : x ≤ listMax l := by
  cases l with
  | nil => simp at hx
  | cons a xs => exact foldlMaxGe xs a x hx

lemma getfgrid_len (Fs : ℚ) (nfft : ℕ) (fp : ℚ × ℚ) :
    (getfgrid Fs nfft fp).1.length = (getfgrid Fs nfft fp).2.length := by
  simp only [getfgrid]
  exact List.length_map _ _

lemma mtfftptCore_eq_some (E : NumExt) (tl tapers : List (List ℚ)) (nfft : ℕ)
    (t f : List ℚ) (findx : List ℕ) (h : f.length = findx.length) :
    mtfftptCore E tl tapers nfft t f findx =
      some (tl.map (fun events =>
              mtJcol E tapers t (wOf E f) (Hof E tapers nfft findx) events),
            tl.map (fun events => mspOf t events),
            tl.map (fun events => (evFilter t events).length)) := by
  unfold mtfftptCore
  rw [if_pos h]

lemma cohPre_isSome (E : NumExt) (S tl : List (List ℚ)) (opts : Opts) :
    ∃ p, cohPre E S tl opts = some p := by
  have h := mtfftptCore_eq_some E tl (dpsschk E S.length opts)
    (nfftOf S.length opts.pad) (cohGrid S opts)
    (getfgrid opts.Fs (nfftOf S.length opts.pad) (fpassOf opts)).1
    (getfgrid opts.Fs (nfftOf S.length opts.pad) (fpassOf opts)).2
    (getfgrid_len _ _ _)
  cases hc : cohPre E S tl opts with
  | some p => exact ⟨p, rfl⟩
  | none => simp [cohPre, h] at hc

lemma cohBody_ok (E : NumExt) (S tl : List (List ℚ)) (opts : Opts) :
    ∃ out, cohBody E S tl opts = Except.ok out := by
  obtain ⟨p, hp⟩ := cohPre_isSome E S tl opts
  obtain ⟨J1, J2, f⟩ := p
  unfold cohBody
  rw [hp]
  exact ⟨_, rfl⟩

lemma mtJcol_empty (E : NumExt) (tapers : List (List ℚ)) (t w : List ℚ)
    (H : List (List CQ)) (events : List ℚ) (h : evFilter t events = []) :
    mtJcol E tapers t w H events =
      w.map (fun _ => (List.range (numColsQ tapers)).map (fun _ => CQ.zero)) := by
  unfold mtJcol
  rw [h]
  simp

lemma tileCols_one (S : List (List ℚ)) : tileCols S 1 = S := by
  unfold tileCols
  simp

/-! Claim theorems. -/

/-- C7 counterexample: with matching frequency sizes (`f = [0]`,
`findx = [0]`) but tapers `T4` (length 4) over the two-point grid `[0, 1]`,
the transformer still fails — the `interp1d` construction of line 235
raises — so "raises a configuration error if and only if the frequency grid
size differs from the index set size" is false at this input. -/
theorem mtfftptRaises_counterexample :
    ¬(mtfftptRaises T4 [0, 1] [0] [0] ↔
      ([0] : List ℚ).length ≠ ([0] : List ℕ).length) := by
  decide

/-- C7 amended: the transformer's `assert` (line 225) fires if and only if
the frequency grid and the index set have different sizes, but that is not
the only error path: even with matching sizes the routine raises when the
`interp1d` construction of line 235 fails (taper length different from the
grid length, or a grid shorter than two points) — `mtfftptRaises` collects
both error paths.  Every modelled failure is a program failure, and when no
failure condition holds the transformer returns a result.  The failure
condition mentions no event data, so empty-event trials never cause a
failure. -/
theorem mtfftptCore_error_amended (E : NumExt) (tl tapers : List (List ℚ))
    (nfft : ℕ) (t f : List ℚ) (findx : List ℕ) :
    (mtfftptCore E tl tapers nfft t f findx = none ↔ f.length ≠ findx.length) ∧
    (mtfftptCore E tl tapers nfft t f findx = none →
      mtfftptRaises tapers t f findx) ∧
    (¬ mtfftptRaises tapers t f findx →
      (mtfftptCore E tl tapers nfft t f findx).isSome = true) := by
  have hiff : mtfftptCore E tl tapers nfft t f findx = none ↔
      f.length ≠ findx.length := by
    unfold mtfftptCore
    split <;> simp_all
  refine ⟨hiff, ?_, ?_⟩
  · intro hnone
    exact Or.inl (hiff.mp hnone)
  · intro hok
    rw [mtfftptRaises] at hok
    push_neg at hok
    unfold mtfftptCore
    rw [if_pos hok.1]
    rfl

/-- Witness for C7's amended claim at a concrete non-failing instance:
tapers `T2` over the matching two-point grid `[0, 1]`. -/
theorem mtfftptCore_error_amended_witness :
    ¬ mtfftptRaises T2 [0, 1] [0] [0] ∧
    (mtfftptCore EconA [[0]] T2 4 [0, 1] [0] [0]).isSome = true := by
  refine ⟨by decide, ?_⟩
  exact (mtfftptCore_error_amended EconA [[0]] T2 4 [0, 1] [0] [0]).2.2 (by decide)

/-- C2: for every trial `c`, the transformer keeps exactly the event times
within `[min(time_grid), max(time_grid)]` inclusive (an order-preserving
sublist, duplicates counted), and sets `Nsp[c]` to the number of retained
events and `Msp[c]` to that count divided by the grid length. -/
theorem mtfftptCore_range_filter (E : NumExt) (tl tapers : List (List ℚ))
    (nfft : ℕ) (t f : List ℚ) (findx : List ℕ)
    (r : List (List (List CQ)) × List ℚ × List ℕ) (c : ℕ)
    (hr : mtfftptCore E tl tapers nfft t f findx = some r)
    (hc : c < tl.length) :
    List.Sublist (evFilter t (tl.getD c [])) (tl.getD c []) ∧
    (∀ x : ℚ, x ∈ evFilter t (tl.getD c []) ↔
      x ∈ tl.getD c [] ∧ listMin t ≤ x ∧ x ≤ listMax t) ∧
    (∀ x : ℚ, (evFilter t (tl.getD c [])).count x =
      if listMin t ≤ x ∧ x ≤ listMax t then (tl.getD c []).count x else 0) ∧
    r.2.2.getD c 0 = (evFilter t (tl.getD c [])).length ∧
    r.2.1.getD c 0 = ((evFilter t (tl.getD c [])).length : ℚ) / ((t.length : ℚ)) := by
  unfold mtfftptCore at hr
  by_cases h : f.length = findx.length
  · rw [if_pos h, Option.some.injEq] at hr
    subst hr
    dsimp only
    refine ⟨List.filter_sublist _, ?_, ?_, ?_, ?_⟩
    · intro x
      simp [evFilter, List.mem_filter]
    · intro x
      by_cases hx : listMin t ≤ x ∧ x ≤ listMax t
      · rw [if_pos hx]
        exact List.count_filter (by simpa using hx)
      · rw [if_neg hx]
        refine List.count_eq_zero.mpr (fun hmem => hx ?_)
        have := (List.mem_filter.mp hmem).2
        simpa using this
    · exact getDMapLt tl _ c [] 0 hc
    · exact getDMapLt tl _ c [] 0 hc
  · rw [if_neg h] at hr
    cases hr

/-- Witness for C2 at a concrete instance: one trial `[0, 5, 1/2]` on the
grid `[0, 1]`; events 0 and 1/2 are retained, 5 is dropped, `Nsp = 2`,
`Msp = 2/2`. -/
theorem mtfftptCore_range_filter_witness :
    List.Sublist (evFilter [0, 1] (([[0, 5, 1/2]] : List (List ℚ)).getD 0 []))
      (([[0, 5, 1/2]] : List (List ℚ)).getD 0 []) ∧
    (∀ x : ℚ, x ∈ evFilter [0, 1] (([[0, 5, 1/2]] : List (List ℚ)).getD 0 []) ↔
      x ∈ ([[0, 5, 1/2]] : List (List ℚ)).getD 0 [] ∧
        listMin [0, 1] ≤ x ∧ x ≤ listMax [0, 1]) ∧
    (∀ x : ℚ, (evFilter [0, 1] (([[0, 5, 1/2]] : List (List ℚ)).getD 0 [])).count x =
      if listMin [0, 1] ≤ x ∧ x ≤ listMax [0, 1] then
        (([[0, 5, 1/2]] : List (List ℚ)).getD 0 []).count x else 0) ∧
    rWc2.2.2.getD 0 0 =
      (evFilter [0, 1] (([[0, 5, 1/2]] : List (List ℚ)).getD 0 [])).length ∧
    rWc2.2.1.getD 0 0 =
      ((evFilter [0, 1] (([[0, 5, 1/2]] : List (List ℚ)).getD 0 [])).length : ℚ) /
        ((([0, 1] : List ℚ).length : ℚ)) := by
  have hr : mtfftptCore EconA [[0, 5, 1/2]] T2 4 [0, 1] [0] [0] = some rWc2 := by
    norm_num [mtfftptCore, mtJcol, evFilter, listMin, listMax, mspOf, wOf, Hof,
      dftEntry, numColsQ, colOf, interpLin, outerC, gemmTB, matSub, smulMat, csum,
      CQ.mul, CQ.add, CQ.sub, CQ.zero, EconA, T2, rWc2, List.range_succ,
      List.filter_cons, List.replicate_succ]
  exact mtfftptCore_range_filter EconA [[0, 5, 1/2]] T2 4 [0, 1] [0] [0] rWc2 0 hr
    (by norm_num)

/-- C9: trial `c`'s outputs of the transformer depend only on trial `c`'s
event times and the shared trial-invariant inputs: two collections that
agree on trial `c` produce identical `J[:,:,c]`, `Msp[c]`, `Nsp[c]`, and the
column equals the sequential per-trial computation `mtJcol`. -/
theorem mtfftptCore_trial_isolation (E : NumExt) (tapers : List (List ℚ))
    (nfft : ℕ) (t f : List ℚ) (findx : List ℕ) (tl1 tl2 : List (List ℚ))
    (c : ℕ) (r1 r2 : List (List (List CQ)) × List ℚ × List ℕ)
    (h1 : mtfftptCore E tl1 tapers nfft t f findx = some r1)
    (h2 : mtfftptCore E tl2 tapers nfft t f findx = some r2)
    (hc1 : c < tl1.length) (hc2 : c < tl2.length)
    (heq : tl1.getD c [] = tl2.getD c []) :
    r1.1.getD c [] = r2.1.getD c [] ∧
    r1.2.1.getD c 0 = r2.2.1.getD c 0 ∧
    r1.2.2.getD c 0 = r2.2.2.getD c 0 ∧
    r1.1.getD c [] =
      mtJcol E tapers t (wOf E f) (Hof E tapers nfft findx) (tl1.getD c []) := by
  unfold mtfftptCore at h1 h2
  by_cases h : f.length = findx.length
  · rw [if_pos h, Option.some.injEq] at h1 h2
    subst h1
    subst h2
    dsimp only
    refine ⟨?_, ?_, ?_, ?_⟩
    · rw [getDMapLt tl1 _ c [] [] hc1, getDMapLt tl2 _ c [] [] hc2, heq]
    · rw [getDMapLt tl1 _ c [] 0 hc1, getDMapLt tl2 _ c [] 0 hc2, heq]
    · rw [getDMapLt tl1 _ c [] 0 hc1, getDMapLt tl2 _ c [] 0 hc2, heq]
    · rw [getDMapLt tl1 _ c [] [] hc1]
  · rw [if_neg h] at h1
    cases h1

/-- Witness for C9 at a concrete instance: the collections `[[0], [7]]` and
`[[0], [9]]` agree on trial 0 and give the same trial-0 outputs. -/
theorem mtfftptCore_trial_isolation_witness :
    rWc9a.1.getD 0 [] = rWc9b.1.getD 0 [] ∧
    rWc9a.2.1.getD 0 0 = rWc9b.2.1.getD 0 0 ∧
    rWc9a.2.2.getD 0 0 = rWc9b.2.2.getD 0 0 ∧
    rWc9a.1.getD 0 [] =
      mtJcol EconA T2 [0, 1] (wOf EconA [0]) (Hof EconA T2 4 [0])
        (([[0], [7]] : List (List ℚ)).getD 0 []) := by
  have h1 : mtfftptCore EconA [[0], [7]] T2 4 [0, 1] [0] [0] = some rWc9a := by
    norm_num [mtfftptCore, mtJcol, evFilter, listMin, listMax, mspOf, wOf, Hof,
      dftEntry, numColsQ, colOf, interpLin, outerC, gemmTB, matSub, smulMat, csum,
      CQ.mul, CQ.add, CQ.sub, CQ.zero, EconA, T2, rWc9a, List.range_succ,
      List.filter_cons, List.replicate_succ]
  have h2 : mtfftptCore EconA [[0], [9]] T2 4 [0, 1] [0] [0] = some rWc9b := by
    norm_num [mtfftptCore, mtJcol, evFilter, listMin, listMax, mspOf, wOf, Hof,
      dftEntry, numColsQ, colOf, interpLin, outerC, gemmTB, matSub, smulMat, csum,
      CQ.mul, CQ.add, CQ.sub, CQ.zero, EconA, T2, rWc9b, List.range_succ,
      List.filter_cons, List.replicate_succ]
  exact mtfftptCore_trial_isolation EconA T2 4 [0, 1] [0] [0] [[0], [7]] [[0], [9]]
    0 rWc9a rWc9b h1 h2 (by norm_num) (by norm_num) rfl

lemma meanQ_of_all_zero (l : List ℚ) (h : ∀ x ∈ l, x = 0) : meanQ l = 0 := by
  simp [meanQ, List.sum_eq_zero h]

lemma getD_zero_of_all_zero (l : List ℚ) (h : ∀ x ∈ l, x = 0) (i : ℕ) :
    l.getD i 0 = 0 := by
  rw [List.getD_eq_getElem?_getD]
  cases h2 : l[i]? with
  | none => rfl
  | some v =>
    have hv : v ∈ l := List.getElem?_mem h2
    simp [h v hv]

lemma zeroCol_S_entries (w : List ℚ) (K : ℕ) :
    ∀ s ∈ (w.map (fun _ => (List.range K).map (fun _ => CQ.zero))).map
        (fun row => meanQ (row.map (fun z => (CQ.mul z.conj z).re))), s = 0 := by
  intro s hs
  rw [List.map_map] at hs
  obtain ⟨x, _, rfl⟩ := List.mem_map.mp hs
  simp only [Function.comp]
  rw [List.map_map]
  apply meanQ_of_all_zero
  intro y hy
  obtain ⟨n, _, rfl⟩ := List.mem_map.mp hy
  simp [CQ.mul, CQ.conj, CQ.zero]

lemma trialMean_singleton_zero (row : List ℚ) (h : ∀ x ∈ row, x = 0) :
    ∀ s ∈ trialMeanQ [row], s = 0 := by
  intro s hs
  simp only [trialMeanQ, List.headD_cons] at hs
  obtain ⟨i, _, rfl⟩ := List.mem_map.mp hs
  apply meanQ_of_all_zero
  intro y hy
  simp only [List.map_cons, List.map_nil, List.mem_singleton] at hy
  subst hy
  exact getD_zero_of_all_zero row h i

lemma nfft3 : nfftOf 3 0 = 4 := by
  have h : nextpow2 3 = 2 := by simp [nextpow2, Nat.clog]
  simp [nfftOf, h]

lemma nfft4 : nfftOf 4 0 = 4 := by
  have h : nextpow2 4 = 2 := by simp [nextpow2, Nat.clog]
  simp [nfftOf, h]

lemma fgrid4 : getfgrid 1 4 (0, 1/2) = ([0, 1/4, 1/2], [0, 1, 2]) := by
  norm_num [getfgrid, List.range_succ, List.filter_cons]

/-- C3: a trial whose filtered event list is empty produces an all-zero
spectral column (every frequency, every taper) without an error; and for a
single-trial collection with zero events in range, `mtspectrumpt` returns
`S` identically zero at every frequency and rate `R = 0` (the positivity
hypotheses on taper count and grid length mirror numpy, whose empty-axis
means would yield NaN rather than the claimed zeros). -/
theorem mtspectrumpt_zero_events :
    (∀ (E : NumExt) (tapers : List (List ℚ)) (t w : List ℚ) (H : List (List CQ))
      (events : List ℚ), evFilter t events = [] →
      mtJcol E tapers t w H events =
        w.map (fun _ => (List.range (numColsQ tapers)).map (fun _ => CQ.zero))) ∧
    (∀ (E : NumExt) (evs : List ℚ) (opts : Opts)
      (out : List (List ℚ) × List ℚ × List ℚ),
      0 < numColsQ (dpsschk E (gridOf [evs] opts).length opts) →
      0 < (gridOf [evs] opts).length →
      evFilter (gridOf [evs] opts) evs = [] →
      mtspectrumpt E [evs] opts = some out →
      (∀ row ∈ out.1, ∀ s ∈ row, s = 0) ∧ (∀ x ∈ out.2.2, x = 0)) := by
  constructor
  · intro E tapers t w H events hev
    exact mtJcol_empty E tapers t w H events hev
  · intro E evs opts out _hK _ht hev hm
    have hlen := getfgrid_len opts.Fs (nfftOf (gridOf [evs] opts).length opts.pad)
      (fpassOf opts)
    have hcore := mtfftptCore_eq_some E [evs]
      (dpsschk E (gridOf [evs] opts).length opts)
      (nfftOf (gridOf [evs] opts).length opts.pad) (gridOf [evs] opts)
      (getfgrid opts.Fs (nfftOf (gridOf [evs] opts).length opts.pad) (fpassOf opts)).1
      (getfgrid opts.Fs (nfftOf (gridOf [evs] opts).length opts.pad) (fpassOf opts)).2
      hlen
    simp only [mtspectrumpt, mtfftpt, hcore, Option.map_some', Option.some.injEq,
      List.map_cons, List.map_nil] at hm
    rw [mtJcol_empty _ _ _ _ _ _ hev] at hm
    have hmsp : mspOf (gridOf [evs] opts) evs = 0 := by
      simp [mspOf, hev]
    rw [hmsp] at hm
    subst hm
    split
    · constructor
      · intro row hrow s hs
        simp only [List.mem_singleton] at hrow
        subst hrow
        refine trialMean_singleton_zero _ ?_ s hs
        exact zeroCol_S_entries _ _
      · intro x hx
        simp only [List.mem_singleton] at hx
        subst hx
        rw [meanQ_of_all_zero [0] (by simp), zero_mul]
    · constructor
      · intro row hrow s hs
        simp only [List.mem_singleton] at hrow
        subst hrow
        exact zeroCol_S_entries _ _ s hs
      · intro x hx
        simp only [List.mem_singleton] at hx
        subst hx
        exact zero_mul _

/-- Witness for C3 at a concrete instance: a single trial `[5]` with the grid
`[0, 1, 2]` (the event is out of range), giving zero `S` and zero `R`. -/
theorem mtspectrumpt_zero_events_witness :
    0 < numColsQ (dpsschk EconA (gridOf [[5]] optsC3).length optsC3) ∧
    0 < (gridOf [[5]] optsC3).length ∧
    ((∀ row ∈ rWc3.1, ∀ s ∈ row, s = 0) ∧ (∀ x ∈ rWc3.2.2, x = 0)) := by
  have h3 : evFilter (gridOf [[5]] optsC3) [5] = [] := by
    norm_num [evFilter, gridOf, optsC3, listMin, listMax]
  have h4 : mtspectrumpt EconA [[5]] optsC3 = some rWc3 := by
    norm_num [mtspectrumpt, mtfftpt, gridOf, optsC3, nfft3, fgrid4, fpassOf,
      dpsschk, T3, mtfftptCore, mtJcol, evFilter, listMin, listMax, mspOf, wOf,
      Hof, dftEntry, numColsQ, colOf, interpLin, outerC, gemmTB, matSub, smulMat,
      csum, meanQ, trialMeanQ, CQ.mul, CQ.add, CQ.sub, CQ.conj, CQ.zero, EconA,
      rWc3, List.range_succ, List.filter_cons, List.replicate_succ]
  refine ⟨?_, ?_, ?_⟩
  · norm_num [dpsschk, optsC3, T3, numColsQ, gridOf]
  · norm_num [gridOf, optsC3]
  · exact (mtspectrumpt_zero_events).2 EconA [5] optsC3 rWc3
      (by norm_num [dpsschk, optsC3, T3, numColsQ, gridOf])
      (by norm_num [gridOf, optsC3]) h3 h4

/-- C4 counterexample: with `trialave` unset and two trials of unequal rates
(`Msp = [1/4, 3/4]`), `mtspectrumpt` returns the per-trial vector
`R = Msp * Fs = [1/4, 3/4]`, not the claimed `mean(Msp) * Fs = 1/2` at every
entry. -/
theorem mtspectrumpt_R_counterexample :
    ¬((mtspectrumpt EconA tlC4 optsC4).map (fun r => r.2.2) =
      some (List.replicate tlC4.length
        (meanQ (((mtfftpt EconA tlC4 optsC4).map (fun r => r.2.1)).getD []) *
          optsC4.Fs))) := by
  norm_num [mtspectrumpt, mtfftpt, gridOf, optsC4, tlC4, nfft4, fgrid4, fpassOf,
    dpsschk, T4, mtfftptCore, mtJcol, evFilter, listMin, listMax, mspOf, wOf,
    Hof, dftEntry, numColsQ, colOf, interpLin, outerC, gemmTB, matSub, smulMat,
    csum, meanQ, trialMeanQ, CQ.mul, CQ.add, CQ.sub, CQ.conj, CQ.zero, EconA,
    List.range_succ, List.filter_cons, List.replicate_succ]

/-- C4 amended: `mtspectrumpt` computes `S[f, c]` as the mean over the K
tapers of `Re(J·conj(J))` and, when `trialave` is set, averages `S` and `Msp`
across trials and returns `R = mean(Msp) * Fs`; when `trialave` is unset it
returns the per-trial vector `R = Msp * Fs` (not `mean(Msp) * Fs`).  The
frequency axis is the one produced by `mtfftpt`. -/
theorem mtspectrumpt_R_amended (E : NumExt) (tl : List (List ℚ)) (opts : Opts)
    (r : List (List (List CQ)) × List ℚ × List ℕ × List ℚ)
    (s : List (List ℚ) × List ℚ × List ℚ)
    (hr : mtfftpt E tl opts = some r) (hs : mtspectrumpt E tl opts = some s) :
    (opts.trialave = false →
      s.1 = r.1.map (fun Jc =>
        Jc.map (fun row => meanQ (row.map (fun z => (CQ.mul z.conj z).re)))) ∧
      s.2.2 = r.2.1.map (fun m => m * opts.Fs)) ∧
    (opts.trialave = true →
      s.1 = [trialMeanQ (r.1.map (fun Jc =>
        Jc.map (fun row => meanQ (row.map (fun z => (CQ.mul z.conj z).re)))))] ∧
      s.2.2 = [meanQ r.2.1 * opts.Fs]) ∧
    s.2.1 = r.2.2.2 := by
  unfold mtspectrumpt at hs
  rw [hr] at hs
  simp only [Option.map_some', Option.some.injEq] at hs
  subst hs
  refine ⟨?_, ?_, ?_⟩
  · intro hta
    rw [hta, if_neg (by simp : ¬(false = true))]
    exact ⟨rfl, rfl⟩
  · intro hta
    rw [hta, if_pos rfl]
    exact ⟨rfl, rfl⟩
  · by_cases hta : opts.trialave
    · rw [hta, if_pos rfl]
    · rw [Bool.not_eq_true] at hta
      rw [hta, if_neg (by simp : ¬(false = true))]

/-- Witness for C4's amended claim at a concrete instance (`tlC4`, `optsC4`,
`trialave` unset): `R = [1/4, 3/4]` and `S = [[9/4, 9/4, 9/4], …]`. -/
theorem mtspectrumpt_R_amended_witness :
    (optsC4.trialave = false →
      sWc4.1 = rWc4.1.map (fun Jc =>
        Jc.map (fun row => meanQ (row.map (fun z => (CQ.mul z.conj z).re)))) ∧
      sWc4.2.2 = rWc4.2.1.map (fun m => m * optsC4.Fs)) ∧
    (optsC4.trialave = true →
      sWc4.1 = [trialMeanQ (rWc4.1.map (fun Jc =>
        Jc.map (fun row => meanQ (row.map (fun z => (CQ.mul z.conj z).re)))))] ∧
      sWc4.2.2 = [meanQ rWc4.2.1 * optsC4.Fs]) ∧
    sWc4.2.1 = rWc4.2.2.2 := by
  have hr : mtfftpt EconA tlC4 optsC4 = some rWc4 := by
    norm_num [mtfftpt, gridOf, optsC4, tlC4, nfft4, fgrid4, fpassOf, dpsschk, T4,
      mtfftptCore, mtJcol, evFilter, listMin, listMax, mspOf, wOf, Hof, dftEntry,
      numColsQ, colOf, interpLin, outerC, gemmTB, matSub, smulMat, csum, CQ.mul,
      CQ.add, CQ.sub, CQ.zero, EconA, rWc4, List.range_succ, List.filter_cons,
      List.replicate_succ]
  have hs : mtspectrumpt EconA tlC4 optsC4 = some sWc4 := by
    norm_num [mtspectrumpt, mtfftpt, gridOf, optsC4, tlC4, nfft4, fgrid4, fpassOf,
      dpsschk, T4, mtfftptCore, mtJcol, evFilter, listMin, listMax, mspOf, wOf,
      Hof, dftEntry, numColsQ, colOf, interpLin, outerC, gemmTB, matSub, smulMat,
      csum, meanQ, CQ.mul, CQ.add, CQ.sub, CQ.conj, CQ.zero, EconA, sWc4,
      List.range_succ, List.filter_cons, List.replicate_succ]
  exact mtspectrumpt_R_amended EconA tlC4 optsC4 rWc4 sWc4 hr hs

/-- C8: with `trialave` unset, reducing `mtfftpt`'s `J` by the mean over
tapers of `|J|²` reproduces `mtspectrumpt`'s `S` exactly, on the same
frequency axis. -/
theorem mtspectrumpt_roundtrip (E : NumExt) (tl : List (List ℚ)) (opts : Opts)
    (r : List (List (List CQ)) × List ℚ × List ℕ × List ℚ)
    (s : List (List ℚ) × List ℚ × List ℚ)
    (hta : opts.trialave = false)
    (hr : mtfftpt E tl opts = some r) (hs : mtspectrumpt E tl opts = some s) :
    s.1 = r.1.map (fun Jc =>
      Jc.map (fun row => meanQ (row.map (fun z => z.re ^ 2 + z.im ^ 2)))) ∧
    s.2.1 = r.2.2.2 := by
  have hfun : (fun z : CQ => (CQ.mul z.conj z).re) =
      (fun z : CQ => z.re ^ 2 + z.im ^ 2) := by
    funext z
    simp only [CQ.mul, CQ.conj]
    ring
  unfold mtspectrumpt at hs
  rw [hr] at hs
  simp only [Option.map_some', Option.some.injEq] at hs
  subst hs
  rw [hta, if_neg (by simp : ¬(false = true))]
  rw [hfun]
  exact ⟨rfl, rfl⟩

/-- Witness for C8 at a concrete instance (`tlC4`, `optsC4`). -/
theorem mtspectrumpt_roundtrip_witness :
    sWc4.1 = rWc4.1.map (fun Jc =>
      Jc.map (fun row => meanQ (row.map (fun z => z.re ^ 2 + z.im ^ 2)))) ∧
    sWc4.2.1 = rWc4.2.2.2 := by
  have hr : mtfftpt EconA tlC4 optsC4 = some rWc4 := by
    norm_num [mtfftpt, gridOf, optsC4, tlC4, nfft4, fgrid4, fpassOf, dpsschk, T4,
      mtfftptCore, mtJcol, evFilter, listMin, listMax, mspOf, wOf, Hof, dftEntry,
      numColsQ, colOf, interpLin, outerC, gemmTB, matSub, smulMat, csum, CQ.mul,
      CQ.add, CQ.sub, CQ.zero, EconA, rWc4, List.range_succ, List.filter_cons,
      List.replicate_succ]
  have hs : mtspectrumpt EconA tlC4 optsC4 = some sWc4 := by
    norm_num [mtspectrumpt, mtfftpt, gridOf, optsC4, tlC4, nfft4, fgrid4, fpassOf,
      dpsschk, T4, mtfftptCore, mtJcol, evFilter, listMin, listMax, mspOf, wOf,
      Hof, dftEntry, numColsQ, colOf, interpLin, outerC, gemmTB, matSub, smulMat,
      csum, meanQ, CQ.mul, CQ.add, CQ.sub, CQ.conj, CQ.zero, EconA, sWc4,
      List.range_succ, List.filter_cons, List.replicate_succ]
  exact mtspectrumpt_roundtrip EconA tlC4 optsC4 rWc4 sWc4 rfl hr hs

lemma zipWith_map_same {α β γ δ : Type} (f : β → γ → δ) (g1 : α → β) (g2 : α → γ)
    (l : List α) :
    List.zipWith f (l.map g1) (l.map g2) = l.map (fun x => f (g1 x) (g2 x)) := by
  rw [List.zipWith_map_left, List.zipWith_map_right, List.zipWith_same]

lemma gemmTB_entry (A B : List (List CQ)) (i l : ℕ) (hi : i < A.length)
    (hl : l < B.length) :
    ((gemmTB A B).getD i []).getD l CQ.zero =
      csum (List.zipWith CQ.mul (A.getD i []) (B.getD l [])) := by
  simp only [gemmTB]
  rw [getDMapLt A _ i [] [] hi, getDMapLt B _ l [] CQ.zero hl]

lemma matSub_entry (A B : List (List CQ)) (i l : ℕ) (hiA : i < A.length)
    (hiB : i < B.length) (hlA : l < (A.getD i []).length)
    (hlB : l < (B.getD i []).length) :
    ((matSub A B).getD i []).getD l CQ.zero =
      CQ.sub ((A.getD i []).getD l CQ.zero) ((B.getD i []).getD l CQ.zero) := by
  simp only [matSub]
  rw [getDZipLt _ A B i hiA hiB [] [] []]
  rw [getDZipLt CQ.sub _ _ l hlA hlB CQ.zero CQ.zero CQ.zero]

lemma smulMat_entry (H : List (List CQ)) (q : ℚ) (i l : ℕ) (hi : i < H.length)
    (hl : l < (H.getD i []).length) :
    ((smulMat H q).getD i []).getD l CQ.zero =
      CQ.mul ((H.getD i []).getD l CQ.zero) ⟨q, 0⟩ := by
  simp only [smulMat]
  rw [getDMapLt H _ i [] [] hi, getDMapLt _ _ l CQ.zero CQ.zero hl]

lemma Hof_entry (E : NumExt) (tapers : List (List ℚ)) (nfft : ℕ)
    (findx : List ℕ) (i l : ℕ) (hi : i < findx.length) (hl : l < numColsQ tapers) :
    ((Hof E tapers nfft findx).getD i []).getD l CQ.zero =
      dftEntry E nfft (colOf tapers l) (findx.getD i 0) := by
  simp only [Hof]
  rw [getDMapLt findx _ i 0 [] hi,
    getDMapLt (List.range (numColsQ tapers)) _ l 0 CQ.zero (by simpa using hl),
    getDRangeLt _ l hl 0]

lemma mtJcol_entry (E : NumExt) (tapers : List (List ℚ)) (t w : List ℚ)
    (H : List (List CQ)) (events : List ℚ) (fi k : ℕ)
    (hev : evFilter t events ≠ []) (hfi : fi < w.length) (hk : k < numColsQ tapers)
    (hH : fi < H.length) (hHk : k < (H.getD fi []).length) :
    ((mtJcol E tapers t w H events).getD fi []).getD k CQ.zero =
      CQ.sub
        (csum ((evFilter t events).map (fun e =>
          CQ.mul (E.cexp (CQ.mul ⟨0, -(w.getD fi 0)⟩ ⟨e - t.headD 0, 0⟩))
            ⟨interpLin t (colOf tapers k) e, 0⟩)))
        (CQ.mul ((H.getD fi []).getD k CQ.zero)
          ⟨((evFilter t events).length : ℚ) / (t.length : ℚ), 0⟩) := by
  simp only [mtJcol]
  rw [if_pos (List.length_pos.mpr hev)]
  set ev := evFilter t events with hev2
  set Yb := List.map (fun row => List.map E.cexp row)
      (outerC (List.map (fun x => CQ.mk 0 (-x)) w)
        (List.map (fun e => CQ.mk (e - t.headD 0) 0) ev)) with hYb
  set Pb := List.map (fun k =>
      List.map (fun e => CQ.mk (interpLin t (colOf tapers k) e) 0) ev)
      (List.range (numColsQ tapers)) with hPb
  have hYlen : fi < Yb.length := by
    rw [hYb]
    simpa only [List.length_map, outerC] using hfi
  have hPlen : k < Pb.length := by
    rw [hPb]
    simpa only [List.length_map, List.length_range] using hk
  have hGi : fi < (gemmTB Yb Pb).length := by
    simpa only [gemmTB, List.length_map] using hYlen
  have hSi : fi < (smulMat H ((ev.length : ℚ) / (t.length : ℚ))).length := by
    simpa only [smulMat, List.length_map] using hH
  have hGk : k < ((gemmTB Yb Pb).getD fi []).length := by
    rw [gemmTB, getDMapLt Yb _ fi [] [] hYlen]
    simpa only [List.length_map] using hPlen
  have hSk : k < ((smulMat H ((ev.length : ℚ) / (t.length : ℚ))).getD fi []).length := by
    rw [smulMat, getDMapLt H _ fi [] [] hH]
    simpa only [List.length_map] using hHk
  rw [matSub_entry _ _ fi k hGi hSi hGk hSk]
  rw [gemmTB_entry Yb Pb fi k hYlen hPlen]
  rw [smulMat_entry H _ fi k hH hHk]
  congr 1
  · -- the gemm side
    rw [hPb, getDMapLt (List.range (numColsQ tapers)) _ k 0 [] (by simpa using hk),
      getDRangeLt _ k hk 0]
    rw [hYb]
    rw [getDMapLt _ _ fi [] [] (by simpa only [List.length_map, outerC] using hfi)]
    simp only [outerC]
    rw [getDMapLt _ _ fi ⟨0, 0⟩ [] (by simpa only [List.length_map] using hfi)]
    simp only [getDMapLt w (fun x => CQ.mk 0 (-x)) fi 0 ⟨0, 0⟩ hfi]
    rw [List.map_map, List.map_map]
    rw [zipWith_map_same]
    simp only [Function.comp]

/-- C1: for every trial `c` with at least one retained event, the transformer
computes the trial's spectral column as `Y · data_projection^T − H · Msp[c]`:
entrywise, `J[fi, k, c]` is the sum over retained events `e` of
`exp(−i · 2π·f[fi] · (e − t[0]))` times the `k`-th taper linearly interpolated
at `e`, minus the `(findx[fi], k)` entry of the tapers' FFT zero-padded to
`nfft` (computed once outside the per-trial loop) times `Msp[c]`. -/
theorem mtfftptCore_column_formula (E : NumExt) (tl tapers : List (List ℚ))
    (nfft : ℕ) (t f : List ℚ) (findx : List ℕ)
    (r : List (List (List CQ)) × List ℚ × List ℕ) (c fi k : ℕ)
    (hr : mtfftptCore E tl tapers nfft t f findx = some r)
    (hc : c < tl.length)
    (hev : evFilter t (tl.getD c []) ≠ [])
    (hfi : fi < f.length) (hk : k < numColsQ tapers) :
    ((r.1.getD c []).getD fi []).getD k CQ.zero =
      CQ.sub
        (csum ((evFilter t (tl.getD c [])).map (fun e =>
          CQ.mul (E.cexp ⟨0, -(2 * f.getD fi 0 * E.pi * (e - t.headD 0))⟩)
            ⟨interpLin t (colOf tapers k) e, 0⟩)))
        (CQ.mul (dftEntry E nfft (colOf tapers k) (findx.getD fi 0))
          ⟨mspOf t (tl.getD c []), 0⟩) := by
  unfold mtfftptCore at hr
  by_cases h : f.length = findx.length
  · rw [if_pos h, Option.some.injEq] at hr
    subst hr
    dsimp only
    rw [getDMapLt tl _ c [] [] hc]
    rw [mtJcol_entry E tapers t (wOf E f) (Hof E tapers nfft findx) (tl.getD c []) fi k hev
      (by simpa only [wOf, List.length_map] using hfi)
      hk
      (by simpa only [Hof, List.length_map, ← h] using hfi)
      (by
        rw [Hof, getDMapLt findx _ fi 0 [] (by rw [← h]; exact hfi)]
        simpa only [List.length_map, List.length_range] using hk)]
    rw [Hof_entry E tapers nfft findx fi k (by rw [← h]; exact hfi) hk]
    simp only [mspOf, wOf]
    simp only [getDMapLt f (fun x => 2 * x * E.pi) fi 0 0 hfi]
    congr 1
    congr 1
    apply List.map_congr_left
    intro e _he
    congr 1
    congr 1
    simp only [CQ.mul]
    congr 1 <;> ring
  · rw [if_neg h] at hr
    cases hr

/-- Witness for C1 at a concrete instance: trial `[0, 5, 1/2]` on the grid
`[0, 1]` with tapers `T4`, frequency grid `[0]`, index set `[0]`. -/
theorem mtfftptCore_column_formula_witness :
    ((rWc2.1.getD 0 []).getD 0 []).getD 0 CQ.zero =
      CQ.sub
        (csum ((evFilter [0, 1] (([[0, 5, 1/2]] : List (List ℚ)).getD 0 [])).map
          (fun e =>
            CQ.mul (EconA.cexp ⟨0, -(2 * ([0] : List ℚ).getD 0 0 * EconA.pi *
                (e - ([0, 1] : List ℚ).headD 0))⟩)
              ⟨interpLin [0, 1] (colOf T2 0) e, 0⟩)))
        (CQ.mul (dftEntry EconA 4 (colOf T2 0) (([0] : List ℕ).getD 0 0))
          ⟨mspOf [0, 1] (([[0, 5, 1/2]] : List (List ℚ)).getD 0 []), 0⟩) := by
  have hr : mtfftptCore EconA [[0, 5, 1/2]] T2 4 [0, 1] [0] [0] = some rWc2 := by
    norm_num [mtfftptCore, mtJcol, evFilter, listMin, listMax, mspOf, wOf, Hof,
      dftEntry, numColsQ, colOf, interpLin, outerC, gemmTB, matSub, smulMat, csum,
      CQ.mul, CQ.add, CQ.sub, CQ.zero, EconA, T2, rWc2, List.range_succ,
      List.filter_cons, List.replicate_succ]
  have hev : evFilter [0, 1] (([[0, 5, 1/2]] : List (List ℚ)).getD 0 []) ≠ [] := by
    have hv : evFilter [0, 1] (([[0, 5, 1/2]] : List (List ℚ)).getD 0 []) = [0, 1/2] := by
      norm_num [evFilter, listMin, listMax, List.filter_cons]
    rw [hv]
    exact List.cons_ne_nil _ _
  exact mtfftptCore_column_formula EconA [[0, 5, 1/2]] T2 4 [0, 1] [0] [0] rWc2
    0 0 0 hr (by norm_num) hev (by norm_num) (by norm_num [numColsQ, T2])

/-- C6: `coherencycpt` raises the dimension-mismatch error exactly when the
continuous signal's channel count is neither 1 nor the trial count (no
truncation or broadcast); a single-channel signal is tiled to the trial
count and the call proceeds to a successful result. -/
theorem coherencycpt_dim_check (E : NumExt) :
    (∀ (S tl : List (List ℚ)) (opts : Opts),
      numColsQ S ≠ 1 → numColsQ S ≠ tl.length →
      coherencycpt E S tl opts = Except.error CohErr.dimMismatch) ∧
    (∀ (S tl : List (List ℚ)) (opts : Opts), numColsQ S = 1 →
      coherencycpt E S tl opts = cohBody E (tileCols S tl.length) tl opts ∧
      ∃ out, coherencycpt E S tl opts = Except.ok out) := by
  constructor
  · intro S tl opts h1 hneq
    unfold coherencycpt
    rw [if_neg hneq, if_neg h1]
  · intro S tl opts h1
    unfold coherencycpt
    by_cases heq : numColsQ S = tl.length
    · rw [if_pos heq]
      have htl1 : tl.length = 1 := by rw [← heq, h1]
      refine ⟨?_, cohBody_ok E S tl opts⟩
      rw [htl1, tileCols_one]
    · rw [if_neg heq, if_pos h1]
      exact ⟨rfl, cohBody_ok E (tileCols S tl.length) tl opts⟩

/-- Witness for C6 at a concrete instance: a 3-channel signal against a
4-trial collection raises the dimension error. -/
theorem coherencycpt_dim_check_witness :
    coherencycpt EconA [[1, 1, 1]] [[], [], [], []] optsF5 =
      Except.error CohErr.dimMismatch := by
  exact (coherencycpt_dim_check EconA).1 [[1, 1, 1]] [[], [], [], []] optsF5
    (by norm_num [numColsQ]) (by norm_num [numColsQ])

/-- C5: with `trialave` set, `coherencycpt` averages `S12`, `S1`, `S2`
across trials before forming `C12 = S12 / sqrt(S1·S2)` (never after), and
the returned `C` and `phi` are the magnitude and angle of that `C12`; and at
a concrete 2-trial instance the pre-division averaging differs from
averaging the per-trial `C12` after division. -/
theorem coherencycpt_trialave_order :
    (∀ (E : NumExt) (S tl : List (List ℚ)) (opts : Opts) (out : CohOut)
      (J1 J2 : List (List (List CQ))) (f : List ℚ),
      opts.trialave = true →
      numColsQ S = tl.length →
      cohPre E S tl opts = some (J1, J2, f) →
      coherencycpt E S tl opts = Except.ok out →
      out.S12 = [trialMeanC (crossSpec J1 J2)] ∧
      out.S1 = [trialMeanC (crossSpec J1 J1)] ∧
      out.S2 = [trialMeanC (crossSpec J2 J2)] ∧
      out.Cmag = (C12of E out).map (fun row => row.map E.cabs) ∧
      out.phi = (C12of E out).map (fun row => row.map E.cangle)) ∧
    ((coherencycpt EconB Scon5 tlcon5 optsT5).toOption.map
        (fun o => (C12of EconB o).headD []) ≠
      (coherencycpt EconB Scon5 tlcon5 optsF5).toOption.map
        (fun o => trialMeanC (C12of EconB o))) := by
  constructor
  · intro E S tl opts out J1 J2 f hta hdim hpre hok
    unfold coherencycpt at hok
    rw [if_pos hdim] at hok
    unfold cohBody at hok
    rw [hpre] at hok
    simp only [hta, if_true] at hok
    rw [Except.ok.injEq] at hok
    subst hok
    exact ⟨rfl, rfl, rfl, rfl, rfl⟩
  · norm_num [coherencycpt, cohBody, cohPre, cohGrid, numColsQ, nfft4, fgrid4,
      fpassOf, dpsschk, T4, EconB, J1con, mtfftptCore, mtJcol, evFilter, listMin,
      listMax, mspOf, wOf, Hof, dftEntry, colOf, interpLin, outerC, gemmTB,
      matSub, smulMat, csum, crossSpec, meanC, trialMeanC, C12of, CQ.mul, CQ.add,
      CQ.sub, CQ.conj, CQ.div, CQ.zero, Except.toOption, optsT5, optsF5, Scon5,
      tlcon5, List.range_succ, List.filter_cons, List.replicate_succ]

/-- Witness for C5's universally quantified part at a concrete instance
(`Scon5`, `tlcon5`, `optsT5`). -/
theorem coherencycpt_trialave_order_witness :
    outT5.S12 = [trialMeanC (crossSpec J1con J2w5)] ∧
    outT5.S1 = [trialMeanC (crossSpec J1con J1con)] ∧
    outT5.S2 = [trialMeanC (crossSpec J2w5 J2w5)] ∧
    outT5.Cmag = (C12of EconB outT5).map (fun row => row.map EconB.cabs) ∧
    outT5.phi = (C12of EconB outT5).map (fun row => row.map EconB.cangle) := by
  have hpre : cohPre EconB Scon5 tlcon5 optsT5 =
      some (J1con, J2w5, [0, 1/4, 1/2]) := by
    norm_num [cohPre, cohGrid, nfft4, fgrid4, fpassOf, dpsschk, T4, EconB, J1con,
      J2w5, mtfftptCore, mtJcol, evFilter, listMin, listMax, mspOf, wOf, Hof,
      dftEntry, numColsQ, colOf, interpLin, outerC, gemmTB, matSub, smulMat,
      csum, CQ.mul, CQ.add, CQ.sub, CQ.zero, optsT5, Scon5, tlcon5,
      List.range_succ, List.filter_cons, List.replicate_succ]
  have hok : coherencycpt EconB Scon5 tlcon5 optsT5 = Except.ok outT5 := by
    norm_num [coherencycpt, cohBody, cohPre, cohGrid, numColsQ, nfft4, fgrid4,
      fpassOf, dpsschk, T4, EconB, J1con, J2w5, outT5, mtfftptCore, mtJcol,
      evFilter, listMin, listMax, mspOf, wOf, Hof, dftEntry, colOf, interpLin,
      outerC, gemmTB, matSub, smulMat, csum, crossSpec, meanC, trialMeanC,
      C12of, CQ.mul, CQ.add, CQ.sub, CQ.conj, CQ.div, CQ.zero, optsT5, Scon5,
      tlcon5, List.range_succ, List.filter_cons, List.replicate_succ]
  exact (coherencycpt_trialave_order).1 EconB Scon5 tlcon5 optsT5 outT5 J1con
    J2w5 [0, 1/4, 1/2] rfl (by norm_num [numColsQ, Scon5, tlcon5]) hpre hok

lemma arange_grid_bounds (mn mx dt : ℚ) (hdt : 0 < dt) (hle : mn ≤ mx) :
    (arangeQ (mn - dt) (mx + 2*dt) dt).getD 0 0 = mn - dt ∧
    listMin (arangeQ (mn - dt) (mx + 2*dt) dt) ≤ mn - dt ∧
    mx + dt ≤ listMax (arangeQ (mn - dt) (mx + 2*dt) dt) := by
  have hdt0 : dt ≠ 0 := ne_of_gt hdt
  have harg : (mx + 2*dt - (mn - dt)) / dt = (mx - mn) / dt + 3 := by
    field_simp
    ring
  have hq0 : 0 ≤ (mx - mn) / dt := div_nonneg (by linarith) hdt.le
  have hceil : ⌈(mx - mn) / dt + 3⌉ = ⌈(mx - mn) / dt⌉ + 3 := by
    rw [show (3:ℚ) = ((3:ℤ):ℚ) by norm_num, Int.ceil_add_int]
  have hcge : 0 ≤ ⌈(mx - mn) / dt⌉ := Int.ceil_nonneg hq0
  have hn : ((⌈(mx + 2*dt - (mn - dt)) / dt⌉).toNat : ℤ) = ⌈(mx - mn) / dt⌉ + 3 := by
    rw [harg, hceil]
    exact Int.toNat_of_nonneg (by linarith)
  have hn1 : 0 < (⌈(mx + 2*dt - (mn - dt)) / dt⌉).toNat := by omega
  refine ⟨?_, ?_, ?_⟩
  · unfold arangeQ
    rw [getDMapLt (List.range _) _ 0 0 0 (by simpa using hn1), getDRangeLt _ 0 hn1 0]
    norm_num
  · apply listMin_le
    unfold arangeQ
    exact List.mem_map.mpr ⟨0, List.mem_range.mpr hn1, by norm_num⟩
  · have hk0 : (⌈(mx + 2*dt - (mn - dt)) / dt⌉).toNat - 1 <
        (⌈(mx + 2*dt - (mn - dt)) / dt⌉).toNat := by omega
    have hmem : (mn - dt) + ((((⌈(mx + 2*dt - (mn - dt)) / dt⌉).toNat - 1 : ℕ)) : ℚ) * dt ∈
        arangeQ (mn - dt) (mx + 2*dt) dt := by
      unfold arangeQ
      exact List.mem_map.mpr ⟨_, List.mem_range.mpr hk0, rfl⟩
    refine le_trans ?_ (le_listMax _ _ hmem)
    have hcast : ((((⌈(mx + 2*dt - (mn - dt)) / dt⌉).toNat - 1 : ℕ)) : ℚ) =
        ((⌈(mx - mn) / dt⌉ : ℚ)) + 2 := by
      have h1 : (1:ℕ) ≤ (⌈(mx + 2*dt - (mn - dt)) / dt⌉).toNat := hn1
      push_cast [h1]
      have : (((⌈(mx + 2*dt - (mn - dt)) / dt⌉).toNat : ℚ)) =
          ((⌈(mx - mn) / dt⌉ : ℚ)) + 3 := by
        exact_mod_cast congrArg (fun z : ℤ => (z : ℚ)) hn
      linarith [this]
    rw [hcast]
    have h2 : (mx - mn) / dt * dt ≤ ((⌈(mx - mn) / dt⌉ : ℚ)) * dt :=
      mul_le_mul_of_nonneg_right (Int.le_ceil _) hdt.le
    have h3 : (mx - mn) / dt * dt = mx - mn := div_mul_cancel₀ _ hdt0
    nlinarith [h2, h3]

/-- C10: with no explicit `tgrid` (the collection's range is used) or a
two-element bounds pair `(mintime, maxtime)`, `mtfftpt` builds the grid
`arange(mintime − dt, maxtime + 2·dt, dt)` with `dt = 1/Fs` — its first
sample is `mintime − dt` and its maximum is at least one sample past
`maxtime` — so every event within `[mintime, maxtime]` survives the
in-range filter; consequently with the default grid `Nsp[c]` equals trial
`c`'s total event count. -/
theorem mtfftpt_default_grid :
    (∀ (tl : List (List ℚ)) (opts : Opts) (mintime maxtime : ℚ),
      0 < opts.Fs → mintime ≤ maxtime →
      (opts.tgrid = some [mintime, maxtime] ∨
        (opts.tgrid = none ∧ tlRange tl = [mintime, maxtime])) →
      gridOf tl opts =
        arangeQ (mintime - 1/opts.Fs) (maxtime + 2 * (1/opts.Fs)) (1/opts.Fs) ∧
      (gridOf tl opts).getD 0 0 = mintime - 1/opts.Fs ∧
      listMin (gridOf tl opts) ≤ mintime ∧
      maxtime + 1/opts.Fs ≤ listMax (gridOf tl opts) ∧
      (∀ evs : List ℚ, (∀ e ∈ evs, mintime ≤ e ∧ e ≤ maxtime) →
        evFilter (gridOf tl opts) evs = evs)) ∧
    (∀ (E : NumExt) (tl : List (List ℚ)) (opts : Opts)
      (r : List (List (List CQ)) × List ℚ × List ℕ × List ℚ) (c : ℕ),
      0 < opts.Fs → opts.tgrid = none → tl.flatten ≠ [] →
      mtfftpt E tl opts = some r → c < tl.length →
      r.2.2.1.getD c 0 = (tl.getD c []).length) := by
  have partA : ∀ (tl : List (List ℚ)) (opts : Opts) (mintime maxtime : ℚ),
      0 < opts.Fs → mintime ≤ maxtime →
      (opts.tgrid = some [mintime, maxtime] ∨
        (opts.tgrid = none ∧ tlRange tl = [mintime, maxtime])) →
      gridOf tl opts =
        arangeQ (mintime - 1/opts.Fs) (maxtime + 2 * (1/opts.Fs)) (1/opts.Fs) ∧
      (gridOf tl opts).getD 0 0 = mintime - 1/opts.Fs ∧
      listMin (gridOf tl opts) ≤ mintime ∧
      maxtime + 1/opts.Fs ≤ listMax (gridOf tl opts) ∧
      (∀ evs : List ℚ, (∀ e ∈ evs, mintime ≤ e ∧ e ≤ maxtime) →
        evFilter (gridOf tl opts) evs = evs) := by
    intro tl opts mintime maxtime hFs hle htg
    have hdt : 0 < 1/opts.Fs := by positivity
    have hgrid : gridOf tl opts =
        arangeQ (mintime - 1/opts.Fs) (maxtime + 2 * (1/opts.Fs)) (1/opts.Fs) := by
      rcases htg with h | ⟨h1, h2⟩
      · simp [gridOf, h]
      · simp [gridOf, h1, h2]
    obtain ⟨hb1, hb2, hb3⟩ :=
      arange_grid_bounds mintime maxtime (1/opts.Fs) hdt hle
    refine ⟨hgrid, ?_, ?_, ?_, ?_⟩
    · rw [hgrid]
      exact hb1
    · rw [hgrid]
      linarith [hb2]
    · rw [hgrid]
      exact hb3
    · intro evs hevs
      unfold evFilter
      refine List.filter_eq_self.mpr (fun a ha => ?_)
      rw [decide_eq_true_eq]
      obtain ⟨hal, har⟩ := hevs a ha
      rw [hgrid]
      constructor
      · linarith [hb2]
      · linarith [hb3]
  constructor
  · exact partA
  · intro E tl opts r c hFs htg hne hr hc
    obtain ⟨e0, he0⟩ := List.exists_mem_of_ne_nil _ hne
    have hle : listMin tl.flatten ≤ listMax tl.flatten :=
      le_trans (listMin_le _ _ he0) (le_listMax _ _ he0)
    obtain ⟨_, _, _, _, hfill⟩ :=
      partA tl opts (listMin tl.flatten) (listMax tl.flatten) hFs hle
        (Or.inr ⟨htg, rfl⟩)
    have hlen := getfgrid_len opts.Fs (nfftOf (gridOf tl opts).length opts.pad)
      (fpassOf opts)
    have hcore := mtfftptCore_eq_some E tl
      (dpsschk E (gridOf tl opts).length opts)
      (nfftOf (gridOf tl opts).length opts.pad) (gridOf tl opts)
      (getfgrid opts.Fs (nfftOf (gridOf tl opts).length opts.pad) (fpassOf opts)).1
      (getfgrid opts.Fs (nfftOf (gridOf tl opts).length opts.pad) (fpassOf opts)).2
      hlen
    simp only [mtfftpt, hcore, Option.map_some', Option.some.injEq] at hr
    subst hr
    dsimp only
    rw [getDMapLt tl _ c [] 0 hc]
    have hmemc : tl.getD c [] ∈ tl := by
      rw [List.getD_eq_getElem?_getD, List.getElem?_eq_getElem hc]
      exact List.getElem_mem hc
    rw [hfill (tl.getD c []) ?_]
    intro e he
    have hef : e ∈ tl.flatten := List.mem_flatten.mpr ⟨tl.getD c [], hmemc, he⟩
    exact ⟨listMin_le _ _ hef, le_listMax _ _ hef⟩

/-- Witness for C10 at a concrete instance: bounds pair `[0, 1]` with
`Fs = 1`, giving the grid `arange(-1, 3, 1)`. -/
theorem mtfftpt_default_grid_witness :
    gridOf [] optsW10 =
      arangeQ (0 - 1/optsW10.Fs) (1 + 2 * (1/optsW10.Fs)) (1/optsW10.Fs) ∧
    (gridOf [] optsW10).getD 0 0 = 0 - 1/optsW10.Fs ∧
    listMin (gridOf [] optsW10) ≤ 0 ∧
    1 + 1/optsW10.Fs ≤ listMax (gridOf [] optsW10) ∧
    (∀ evs : List ℚ, (∀ e ∈ evs, (0:ℚ) ≤ e ∧ e ≤ 1) →
      evFilter (gridOf [] optsW10) evs = evs) := by
  exact (mtfftpt_default_grid).1 [] optsW10 0 1 (by norm_num [optsW10])
    (by norm_num) (Or.inl rfl)
